import Mathlib

/-!
# Konsole: process inspection, screen window and history reflow

A shallow embedding of the parts of the terminal emulator that the verified
properties talk about.

* `ProcessInfo.cpp` is embedded from its source text: `formatShortDir`, the
  `/proc/<pid>/status` Uid parsing, the `/proc/<pid>/stat` field scan, the
  `/proc/<pid>/cmdline` reader, the field flags of `ProcessInfo` and the walk
  up the parent pids of `validCurrentDir`.
* `ScreenWindow.h` and `HistoryScroll.h` only declare their operations; the
  bodies live in files that are not part of the source tree at hand, so those
  operations are modelled from the design document and say so.

Strings (`QString`) are lists of characters; where the code indexes a string
(`formatShortDir`) they are lists of UTF-16 code units. C++ `int` values are
`Int` (no arithmetic here comes near the 32-bit range), counts are `Nat`.
-/

namespace Konsole

/-! ## QString -/

/-- A `QString` is a finite sequence of characters. -/
abbrev QString := List Char

/-- A `QChar`: one UTF-16 code unit of a `QString`, as its number (below 65536; nothing
here depends on the bound). Indexing a `QString` (`part[0]`) yields one code unit, half of
a surrogate pair for a character outside the Basic Multilingual Plane; where the code
indexes, strings are sequences of code units. -/
abbrev QChar := Nat

/-- A `QString` as the sequence of its UTF-16 code units. -/
abbrev Utf16String := List QChar

/-- The constructor `QLatin1Char(c)`: the code unit of a Latin-1 character. -/
def QLatin1Char (c : Char) : QChar := c.toNat

/-- The UTF-16 code units of one Unicode character: itself in the Basic Multilingual
Plane, a high and a low surrogate above it. -/
def utf16Units (c : Char) : Utf16String :=
  if c.toNat < 65536 then [c.toNat]
  else [55296 + (c.toNat - 65536) / 1024, 56320 + (c.toNat - 65536) % 1024]

/-- The UTF-16 code units of a text. -/
def utf16 (s : QString) : Utf16String := (s.map utf16Units).flatten

/-- The value of `QDir::separator()` on the Unix systems `ProcessInfo.cpp` reads `/proc` on. -/
def separator : QChar := QLatin1Char '/'

/-- The tab character, `QLatin1Char('\t')`. -/
def tabChar : Char := Char.ofNat 9

/-- The NUL character, `QLatin1Char('\0')`. -/
def nulChar : Char := Char.ofNat 0

/-- Embeds `QString::split(sep)` with the default `Qt::KeepEmptyParts`: the pieces between
consecutive separators, empty pieces included; a text without separator is one piece. -/
def split {α : Type} [DecidableEq α] (sep : α) : List α → List (List α)
  | [] => [[]]
  | c :: cs =>
    if c = sep then [] :: split sep cs
    else
      match split sep cs with
      | [] => [[c]]
      | p :: ps => (c :: p) :: ps

/-- Embeds `QString::split(sep, Qt::SkipEmptyParts)`: the non-empty pieces only. -/
def splitSkipEmpty (sep : Char) (s : QString) : List QString :=
  (split sep s).filter (fun p => !p.isEmpty)

/-- Embeds `QString::startsWith`. -/
def startsWith (s pre : QString) : Bool := pre.isPrefixOf s

/-- A reading of `QString::toInt(&ok)` in base 10 (Qt library code): an optional sign
followed by at least one decimal digit, the value within the range of a 32-bit `int`;
`none` is `ok = false`. Surrounding white space, which Qt also accepts, is not modelled. -/
def digitsValue : List Char → Nat → Option Nat
  | [], acc => some acc
  | c :: cs, acc => if c.isDigit then digitsValue cs (acc * 10 + (c.toNat - 48)) else none

/-- See `digitsValue`. -/
def qToInt (s : QString) : Option Int :=
  match s with
  | [] => none
  | '-' :: ds =>
    if ds.isEmpty then none
    else (digitsValue ds 0).bind (fun n => if n ≤ 2147483648 then some (-(n : Int)) else none)
  | '+' :: ds =>
    if ds.isEmpty then none
    else (digitsValue ds 0).bind (fun n => if n ≤ 2147483647 then some (n : Int) else none)
  | ds => (digitsValue ds 0).bind (fun n => if n ≤ 2147483647 then some (n : Int) else none)

/-! ## ProcessInfo (ProcessInfo.cpp) -/

/-- The flags of `ProcessInfo::_fields`, by the names `ProcessInfo.cpp` uses. -/
inductive Field where
  | PROCESS_ID
  | PARENT_PID
  | FOREGROUND_PID
  | ARGUMENTS
  | NAME
  | CURRENT_DIR
  | UID
  deriving DecidableEq

/-- A `QFlags<Field>` value: which flags are set. -/
abbrev Fields := Field → Bool

/-- The flag set holding exactly `f`, as in the initialiser `_fields(ARGUMENTS)`. -/
def Fields.only (f : Field) : Fields := fun g => decide (g = f)

/-- The update `_fields |= f`. -/
def Fields.set (fs : Fields) (f : Field) : Fields := fun g => decide (g = f) || fs g

/-- Embeds `QFlags::testFlag`. -/
def Fields.testFlag (fs : Fields) (f : Field) : Bool := fs f

/-- Embeds `ProcessInfo::Error`, by the enumerators `ProcessInfo.cpp` uses. -/
inductive Error where
  | NoError
  | UnknownError
  | PermissionsError
  deriving DecidableEq

/-- Embeds `QFile::FileError`, as far as `setFileError` tells its values apart. -/
inductive FileError where
  | NoError
  | PermissionsError
  | Other
  deriving DecidableEq

/-- The data members of `ProcessInfo`. -/
structure ProcessInfo where
  _fields : Fields
  _pid : Int
  _parentPid : Int
  _foregroundPid : Int
  _userId : Int
  _lastError : Error
  _name : QString
  _userName : QString
  _userHomeDir : QString
  _currentDir : QString
  _userNameRequired : Bool
  _arguments : List QString

namespace ProcessInfo

/-- The constructor `ProcessInfo::ProcessInfo(int pid)`. -/
def new (pid : Int) : ProcessInfo :=
  { _fields := Fields.only Field.ARGUMENTS
    _pid := pid
    _parentPid := 0
    _foregroundPid := 0
    _userId := 0
    _lastError := Error.NoError
    _name := []
    _userName := []
    _userHomeDir := []
    _currentDir := []
    _userNameRequired := true
    _arguments := [] }

/-- Embeds `ProcessInfo::setError`. -/
def setError (p : ProcessInfo) (error : Error) : ProcessInfo :=
  { p with _lastError := error }

/-- Embeds `ProcessInfo::arguments(bool *ok)`: the returned vector and the value stored in `*ok`. -/
def arguments (p : ProcessInfo) : List QString × Bool :=
  (p._arguments, p._fields.testFlag Field.ARGUMENTS)

/-- Embeds `ProcessInfo::userId(bool *ok)`. -/
def userId (p : ProcessInfo) : Int × Bool :=
  (p._userId, p._fields.testFlag Field.UID)

/-- Embeds `ProcessInfo::parentPid(bool *ok)`. -/
def parentPid (p : ProcessInfo) : Int × Bool :=
  (p._parentPid, p._fields.testFlag Field.PARENT_PID)

/-- Embeds `ProcessInfo::foregroundPid(bool *ok)`. -/
def foregroundPid (p : ProcessInfo) : Int × Bool :=
  (p._foregroundPid, p._fields.testFlag Field.FOREGROUND_PID)

/-- Embeds `ProcessInfo::name(bool *ok)`. -/
def name (p : ProcessInfo) : QString × Bool :=
  (p._name, p._fields.testFlag Field.NAME)

/-- Embeds `ProcessInfo::setPid`. -/
def setPid (p : ProcessInfo) (pid : Int) : ProcessInfo :=
  { p with _pid := pid, _fields := p._fields.set Field.PROCESS_ID }

/-- Embeds `ProcessInfo::setUserId`. -/
def setUserId (p : ProcessInfo) (uid : Int) : ProcessInfo :=
  { p with _userId := uid, _fields := p._fields.set Field.UID }

/-- Embeds `ProcessInfo::setUserName` together with the `setUserHomeDir` it calls; `homeDir` stands
for `KUser(name).homeDir()` and `homePath` for `QDir::homePath()`. -/
def setUserName (homeDir : QString → QString) (homePath : QString) (p : ProcessInfo)
    (name : QString) : ProcessInfo :=
  { p with
    _userName := name
    _userHomeDir := if !name.isEmpty then homeDir name else homePath }

/-- Embeds `ProcessInfo::setParentPid`. -/
def setParentPid (p : ProcessInfo) (pid : Int) : ProcessInfo :=
  { p with _parentPid := pid, _fields := p._fields.set Field.PARENT_PID }

/-- Embeds `ProcessInfo::setForegroundPid`. -/
def setForegroundPid (p : ProcessInfo) (pid : Int) : ProcessInfo :=
  { p with _foregroundPid := pid, _fields := p._fields.set Field.FOREGROUND_PID }

/-- Embeds `ProcessInfo::setUserNameRequired`. -/
def setUserNameRequired (p : ProcessInfo) (need : Bool) : ProcessInfo :=
  { p with _userNameRequired := need }

/-- Embeds `ProcessInfo::setCurrentDir`. -/
def setCurrentDir (p : ProcessInfo) (dir : QString) : ProcessInfo :=
  { p with _fields := p._fields.set Field.CURRENT_DIR, _currentDir := dir }

/-- Embeds `ProcessInfo::setName`. -/
def setName (p : ProcessInfo) (name : QString) : ProcessInfo :=
  { p with _name := name, _fields := p._fields.set Field.NAME }

/-- Embeds `ProcessInfo::addArgument`. -/
def addArgument (p : ProcessInfo) (argument : QString) : ProcessInfo :=
  { p with _arguments := p._arguments ++ [argument] }

/-- Embeds `ProcessInfo::clearArguments`. -/
def clearArguments (p : ProcessInfo) : ProcessInfo :=
  { p with _arguments := [] }

/-- Embeds `ProcessInfo::setFileError`. -/
def setFileError (p : ProcessInfo) (error : FileError) : ProcessInfo :=
  match error with
  | FileError.PermissionsError => p.setError Error.PermissionsError
  | FileError.NoError => p.setError Error.NoError
  | FileError.Other => p.setError Error.UnknownError

/-- One call of a state-changing member function of `ProcessInfo`. -/
inductive Call where
  | setError (error : Error)
  | setPid (pid : Int)
  | setUserId (uid : Int)
  | setUserName (name : QString)
  | setParentPid (pid : Int)
  | setForegroundPid (pid : Int)
  | setUserNameRequired (need : Bool)
  | setCurrentDir (dir : QString)
  | setName (name : QString)
  | setFileError (error : FileError)
  | addArgument (argument : QString)
  | clearArguments

/-- The effect of one call. -/
def step (homeDir : QString → QString) (homePath : QString) (p : ProcessInfo) :
    Call → ProcessInfo
  | Call.setError e => p.setError e
  | Call.setPid pid => p.setPid pid
  | Call.setUserId uid => p.setUserId uid
  | Call.setUserName n => setUserName homeDir homePath p n
  | Call.setParentPid pid => p.setParentPid pid
  | Call.setForegroundPid pid => p.setForegroundPid pid
  | Call.setUserNameRequired need => p.setUserNameRequired need
  | Call.setCurrentDir dir => p.setCurrentDir dir
  | Call.setName n => p.setName n
  | Call.setFileError e => p.setFileError e
  | Call.addArgument a => p.addArgument a
  | Call.clearArguments => p.clearArguments

/-- The effect of a sequence of calls, first call first. -/
def run (homeDir : QString → QString) (homePath : QString) (p : ProcessInfo)
    (calls : List Call) : ProcessInfo :=
  calls.foldl (step homeDir homePath) p

/-- The loop of `ProcessInfo::formatShortDir` over the parts of the path, last part first.
`part[0]` is the first UTF-16 code unit of the part; for an empty part it lies outside the
string and is a failure (`none`). -/
def formatShortDirLoop (dirNamesToShorten : List Utf16String) :
    List Utf16String → Utf16String → Option Utf16String
  | [], result => some result
  | part :: rest, result =>
    if dirNamesToShorten.contains part then
      match part with
      | [] => none
      | c :: _ => formatShortDirLoop dirNamesToShorten rest (separator :: c :: result)
    else some (part ++ result)

/-- Embeds `ProcessInfo::formatShortDir`; `commonDirNames` is the value of `commonDirNames()`. -/
def formatShortDir (commonDirNames : List Utf16String) (input : Utf16String) :
    Option Utf16String :=
  if input = [QLatin1Char '/'] then some [QLatin1Char '/']
  else formatShortDirLoop commonDirNames (split separator input).reverse []

/-- The abbreviation of a common directory name: the separator and the first code unit. -/
def abbreviation : Utf16String → Utf16String
  | [] => []
  | c :: _ => [separator, c]

/-! ### LinuxProcessInfo (ProcessInfo.cpp, Q_OS_LINUX) -/

/-- The do-while loop of `readProcInfo` over the lines of `/proc/<pid>/status`: the first
line that starts with `Uid:`, or the null string when the stream ends without one. -/
def findUidLine : List QString → QString
  | [] => []
  | statusLine :: more =>
    if startsWith statusLine ['U', 'i', 'd', ':'] then statusLine else findUidLine more

/-- The string `uidString` that `readProcInfo` hands to `toInt`: entry 1 of the tab-split
Uid line when there are 5 entries, cleared when longer than 5 characters. -/
def uidStringOf (uidLine : QString) : QString :=
  let uidStrings := splitSkipEmpty tabChar uidLine
  let uidString := if uidStrings.length = 5 then uidStrings.getD 1 [] else []
  if uidString.length > 5 then [] else uidString

/-- The user-id part of `LinuxProcessInfo::readProcInfo` for a status file that could be
opened and holds the lines `statusLines`, up to and including `setUserId`. -/
def readProcInfoUid (toInt : QString → Option Int) (statusLines : List QString)
    (p : ProcessInfo) : ProcessInfo :=
  match toInt (uidStringOf (findUidLine statusLines)) with
  | some uid => p.setUserId uid
  | none => p

/-- The local variables of the scan over the text of `/proc/<pid>/stat`. -/
structure StatScan where
  stack : Int
  field : Nat
  parentPidString : QString
  processNameString : QString
  foregroundPidString : QString
  deriving DecidableEq

/-- The field index `PARENT_PID_FIELD`. -/
def PARENT_PID_FIELD : Nat := 3

/-- The field index `PROCESS_NAME_FIELD`. -/
def PROCESS_NAME_FIELD : Nat := 1

/-- The field index `GROUP_PROCESS_FIELD`. -/
def GROUP_PROCESS_FIELD : Nat := 7

/-- The values of the scan variables before the loop. -/
def StatScan.init : StatScan :=
  { stack := 0, field := 0, parentPidString := [], processNameString := [],
    foregroundPidString := [] }

/-- One round of the `while (pos < data.count())` loop, on character `c`. -/
def scanStep (s : StatScan) (c : Char) : StatScan :=
  if c = '(' then { s with stack := s.stack + 1 }
  else if c = ')' then { s with stack := s.stack - 1 }
  else if s.stack = 0 ∧ c = ' ' then { s with field := s.field + 1 }
  else if s.field = PARENT_PID_FIELD then
    { s with parentPidString := s.parentPidString ++ [c] }
  else if s.field = PROCESS_NAME_FIELD then
    { s with processNameString := s.processNameString ++ [c] }
  else if s.field = GROUP_PROCESS_FIELD then
    { s with foregroundPidString := s.foregroundPidString ++ [c] }
  else s

/-- The whole scan loop over the text `data`, from `pos = 0`. -/
def scanStat (data : QString) : StatScan :=
  data.foldl scanStep StatScan.init

/-- The part of `readProcInfo` from the scan of the stat text to the return: the new
state and the returned `ok`. -/
def readProcInfoStat (toInt : QString → Option Int) (pid : Int) (data : QString)
    (p : ProcessInfo) : ProcessInfo × Bool :=
  let s := scanStat data
  let p1 :=
    match toInt s.foregroundPidString with
    | some foregroundPid => p.setForegroundPid foregroundPid
    | none => p
  let parsed := toInt s.parentPidString
  let p2 :=
    match parsed with
    | some parentPid => p1.setParentPid parentPid
    | none => p1
  let p3 := if !s.processNameString.isEmpty then p2.setName s.processNameString else p2
  (p3.setPid pid, parsed.isSome)

/-- The body of `LinuxProcessInfo::readProcInfo`. A file that cannot be opened is `none`
and comes with its `QFile::FileError`; `readUserName` is the inherited member function
called when the user name is still required. -/
def readProcInfo (toInt : QString → Option Int) (readUserName : ProcessInfo → ProcessInfo)
    (pid : Int) (statusInfo : Option (List QString)) (statusError : FileError)
    (processInfo : Option QString) (processError : FileError)
    (p : ProcessInfo) : ProcessInfo × Bool :=
  match statusInfo with
  | none => (p.setFileError statusError, false)
  | some statusLines =>
    let p1 := readProcInfoUid toInt statusLines p
    let p2 := if p1._userNameRequired then (readUserName p1).setUserNameRequired false else p1
    match processInfo with
    | none => (p2.setFileError processError, false)
    | some data => readProcInfoStat toInt pid data p2

/-- The body of `LinuxProcessInfo::readArguments`; `argumentsFile` is the text of
`/proc/<pid>/cmdline`, or `none` with the file error when it cannot be opened. -/
def readArguments (argumentsFile : Option QString) (fileError : FileError)
    (p : ProcessInfo) : ProcessInfo × Bool :=
  match argumentsFile with
  | some data =>
    ((split nulChar data).foldl
      (fun q entry => if !entry.isEmpty then q.addArgument entry else q) p, true)
  | none => (p.setFileError fileError, true)

/-- The text of a stat file: the pid field, the name in one pair of parentheses, then the
remaining fields, each after one space. -/
def statText (pidField name : QString) (rest : List QString) : QString :=
  pidField ++ ' ' :: '(' :: name ++ ')' :: (rest.map (fun f => ' ' :: f)).flatten

end ProcessInfo

/-! ## Screen window (ScreenWindow.h)

The header declares the operations; their bodies are modelled from the design document. -/

/-- Modelled from the spec: the selection modes of the screen-window data model
(character stream, column rectangle, line range); their declaration is missing. -/
inductive SelectionMode where
  | character
  | column
  | lineRange
  deriving DecidableEq

/-- Modelled from the spec: the selection state of the data model, whose declaration is
missing: the anchor given to `setSelectionStart`, and the start and end points in
absolute (history-line) coordinates, normalised to scan order. -/
structure Selection where
  anchorColumn : Int
  anchorLine : Int
  startColumn : Int
  startLine : Int
  endColumn : Int
  endLine : Int
  mode : SelectionMode
  deriving DecidableEq

/-- Modelled from the spec: class `Screen` (Screen.h is missing), as far as the window
reads it: the number of history lines, the live lines and columns of the grid, and the
current selection. -/
structure Screen where
  historyLines : Nat
  lines : Nat
  columns : Nat
  selection : Option Selection
  deriving DecidableEq

/-- The enumeration `ScreenWindow::RelativeScrollMode`. -/
inductive RelativeScrollMode where
  | ScrollLines
  | ScrollPages
  deriving DecidableEq

/-- The data members of `ScreenWindow` (the image buffer left out). -/
structure ScreenWindow where
  _screen : Screen
  _bufferNeedsUpdate : Bool
  _windowLines : Int
  _currentLine : Int
  _currentResultLine : Int
  _trackOutput : Bool
  _scrollCount : Int
  deriving DecidableEq

/-- The Qt template function `qBound(min, value, max)`. -/
def qBound (lo value hi : Int) : Int := max lo (min hi value)

/-- Scan order on absolute coordinates: line first, then column. -/
def scanLe (line1 column1 line2 column2 : Int) : Bool :=
  decide (line1 < line2) || (decide (line1 = line2) && decide (column1 ≤ column2))

namespace ScreenWindow

/-- Modelled from the spec: the body of `ScreenWindow::windowLines` is missing; it is the
view height. -/
def windowLines (w : ScreenWindow) : Int := w._windowLines

/-- Modelled from the spec: the body of `ScreenWindow::lineCount` is missing; the total is
the history lines followed by the live lines of the screen. -/
def lineCount (w : ScreenWindow) : Int := (w._screen.historyLines : Int) + (w._screen.lines : Int)

/-- Modelled from the spec: the body of `ScreenWindow::currentLine` is missing; it is the
index of the line at the top of the window. -/
def currentLine (w : ScreenWindow) : Int := w._currentLine

/-- Modelled from the spec: the body of `ScreenWindow::trackOutput` is missing. -/
def trackOutput (w : ScreenWindow) : Bool := w._trackOutput

/-- Modelled from the spec: the body of `ScreenWindow::atEndOfOutput` is missing; the
window is at the bottom when its top line is the last valid top. -/
def atEndOfOutput (w : ScreenWindow) : Bool :=
  decide (w.currentLine = w.lineCount - w.windowLines)

/-- Modelled from the spec: the body of `ScreenWindow::setWindowLines` is missing. -/
def setWindowLines (w : ScreenWindow) (lines : Int) : ScreenWindow :=
  { w with _windowLines := lines }

/-- Modelled from the spec: the body of `ScreenWindow::scrollTo` is missing; it sets the
top of the window to `line` clamped to the valid range from 0 to
`lineCount() - windowLines()`, adds the line delta to the scroll count and marks the
image buffer stale. -/
def scrollTo (w : ScreenWindow) (line : Int) : ScreenWindow :=
  let maxCurrentLineNumber := w.lineCount - w.windowLines
  let bounded := qBound 0 line maxCurrentLineNumber
  { w with
    _currentLine := bounded
    _scrollCount := w._scrollCount + (bounded - w._currentLine)
    _bufferNeedsUpdate := true }

/-- Modelled from the spec: the body of `ScreenWindow::scrollBy` is missing; a relative
scroll by lines, or by pages of `windowLines()` lines (half of that when `fullPage` is
false), positive amounts going down. -/
def scrollBy (w : ScreenWindow) (mode : RelativeScrollMode) (amount : Int)
    (fullPage : Bool) : ScreenWindow :=
  match mode with
  | RelativeScrollMode.ScrollLines => w.scrollTo (w.currentLine + amount)
  | RelativeScrollMode.ScrollPages =>
    if fullPage then w.scrollTo (w.currentLine + amount * w.windowLines)
    else w.scrollTo (w.currentLine + amount * (w.windowLines.tdiv 2))

/-- Modelled from the spec: the body of `ScreenWindow::setTrackOutput` is missing. -/
def setTrackOutput (w : ScreenWindow) (trackOutput : Bool) : ScreenWindow :=
  { w with _trackOutput := trackOutput }

/-- Modelled from the spec: the body of `ScreenWindow::notifyOutputChanged` is missing;
when the window tracks output it jumps to the bottom, the last valid top, and in every
case the buffered image is invalidated. -/
def notifyOutputChanged (w : ScreenWindow) : ScreenWindow :=
  if w._trackOutput then
    { w.scrollTo (w.lineCount - w.windowLines) with _bufferNeedsUpdate := true }
  else { w with _bufferNeedsUpdate := true }

/-- Modelled from the spec: the body of `ScreenWindow::setSelectionStart` is missing; it
begins a new selection at the given absolute point, a rectangle in column mode and a
character stream otherwise. -/
def setSelectionStart (w : ScreenWindow) (column line : Int) (columnMode : Bool) : ScreenWindow :=
  let sel : Selection :=
    { anchorColumn := column, anchorLine := line
      startColumn := column, startLine := line
      endColumn := column, endLine := line
      mode := if columnMode then SelectionMode.column else SelectionMode.character }
  { w with _screen := { w._screen with selection := some sel }, _bufferNeedsUpdate := true }

/-- Modelled from the spec: the body of `ScreenWindow::setSelectionEnd` is missing; it
extends the selection from its anchor to the given absolute point and puts the two points
in scan order. Without a selection begun there is nothing to extend. -/
def setSelectionEnd (w : ScreenWindow) (column line : Int)
    (_trimTrailingWhitespace : Bool) : ScreenWindow :=
  match w._screen.selection with
  | none => w
  | some sel =>
    let sel2 : Selection :=
      if scanLe sel.anchorLine sel.anchorColumn line column then
        { sel with
          startColumn := sel.anchorColumn, startLine := sel.anchorLine
          endColumn := column, endLine := line }
      else
        { sel with
          startColumn := column, startLine := line
          endColumn := sel.anchorColumn, endLine := sel.anchorLine }
    { w with _screen := { w._screen with selection := some sel2 }, _bufferNeedsUpdate := true }

/-- Modelled from the spec: the body of `ScreenWindow::clearSelection` is missing. -/
def clearSelection (w : ScreenWindow) : ScreenWindow :=
  { w with _screen := { w._screen with selection := none } }

/-- Modelled from the spec: the body of `ScreenWindow::isSelected` is missing; an absolute
coordinate is selected when it lies in the rectangle between start and end in column
mode, in the scan-order range from start to end in character mode, and on a line between
the start and end lines in line-range mode. -/
def isSelected (w : ScreenWindow) (column line : Int) : Bool :=
  match w._screen.selection with
  | none => false
  | some sel =>
    match sel.mode with
    | SelectionMode.column =>
      decide (sel.startLine ≤ line) && decide (line ≤ sel.endLine) &&
        decide (sel.startColumn ≤ column) && decide (column ≤ sel.endColumn)
    | SelectionMode.character =>
      scanLe sel.startLine sel.startColumn line column &&
        scanLe line column sel.endLine sel.endColumn
    | SelectionMode.lineRange =>
      decide (sel.startLine ≤ line) && decide (line ≤ sel.endLine)

end ScreenWindow

/-! ## History store (history/HistoryScroll.h)

`HistoryScroll` declares `reflowLines` as a pure virtual function and fixes
`MAX_REFLOW_LINES`; the implementations are modelled from the design document. -/

/-- The constant `HistoryScroll::MAX_REFLOW_LINES`. -/
def MAX_REFLOW_LINES : Nat := 20000

/-- Modelled from the spec: a character cell (Character.h is missing), reduced to its code
point and whether it is the left half of a wide pair. -/
structure Character where
  character : Nat
  wideLeft : Bool
  deriving DecidableEq

/-- Modelled from the spec: the cell without glyph, a space in default style. -/
def Character.blank : Character := { character := 32, wideLeft := false }

/-- Modelled from the spec: one stored history line, its cells and its WRAPPED flag; the
storage classes are missing. -/
structure HistoryLine where
  cells : List Character
  wrapped : Bool
  deriving DecidableEq

/-- Modelled from the spec: the history store, oldest line first. -/
abbrev History := List HistoryLine

/-- Modelled from the spec: reflow rule 1 and the first half of rule 2, missing with the
implementations of `reflowLines`: the cells of every logical line, a maximal run of lines
of which all but the last are WRAPPED. The first argument holds the cells of the chain
being read. -/
def chainsFrom : Option (List Character) → History → List (List Character)
  | none, [] => []
  | some acc, [] => [acc]
  | cur, l :: ls =>
    let acc := cur.getD [] ++ l.cells
    if l.wrapped then chainsFrom (some acc) ls else acc :: chainsFrom none ls

/-- Modelled from the spec: the second half of reflow rule 2 and rule 3: the cells of one
logical line cut into lines of `columns` cells, all but the last WRAPPED; a wide pair
that would straddle a cut moves to the next line and a space takes its place. -/
def sliceChain (columns : Nat) : Nat → List Character → List HistoryLine
  | 0, _ => []
  | fuel + 1, cells =>
    if cells.length ≤ columns then [{ cells := cells, wrapped := false }]
    else if ((cells.take columns).getLast?.map (fun c => c.wideLeft)).getD false then
      { cells := cells.take (columns - 1) ++ [Character.blank], wrapped := true } ::
        sliceChain columns fuel (cells.drop (columns - 1))
    else
      { cells := cells.take columns, wrapped := true } ::
        sliceChain columns fuel (cells.drop columns)

/-- Modelled from the spec: the lines an unbounded reflow to `columns` columns would
produce. -/
def reflowAll (columns : Nat) (h : History) : History :=
  ((chainsFrom none h).map (fun cells => sliceChain columns (cells.length + 1) cells)).flatten

/-- Modelled from the spec: what a call of `reflowLines` leaves behind: the store, the
number of lines the call materialised, and the line count it returns. -/
structure Reflowed where
  store : History
  materialised : Nat
  reflowedLineCount : Nat
  deriving DecidableEq

/-- Modelled from the spec: the implementations of `HistoryScroll::reflowLines` are
missing. A reflow to at most 1 column is a no-op; otherwise the wrapped chains are cut
anew, the call stops after `MAX_REFLOW_LINES` lines, and the caller sees the number of
lines produced. -/
def reflowLines (columns : Int) (h : History) : Reflowed :=
  if columns ≤ 1 then { store := h, materialised := 0, reflowedLineCount := h.length }
  else
    let produced := (reflowAll columns.toNat h).take MAX_REFLOW_LINES
    { store := produced, materialised := produced.length, reflowedLineCount := produced.length }

/-! ## Reading aids for the stat scan -/

/-- The text of field number `t` among the fields `rest` that follow field number `k`
(empty when there is no such field). -/
def fieldText (t k : Nat) (rest : List QString) : QString :=
  if k < t then rest.getD (t - k - 1) [] else []

/-- A character that is neither a space nor a parenthesis. -/
abbrev plainChar (c : Char) : Prop := c ≠ ' ' ∧ c ≠ '(' ∧ c ≠ ')'

/-- The stat text `1234 (my proc) S 1 1234 1234 34816 5678` in its parts. -/
def sampleStatRest : List QString :=
  ["S".toList, "1".toList, "1234".toList, "1234".toList, "34816".toList, "5678".toList]

/-- The Uid line of the status file of a process of user 65534. -/
def sampleUidLine : QString := "Uid:\t65534\t65534\t65534\t65534".toList

/-! ## Sample states -/

/-- A window of 5 lines at line 3 of a screen with 10 history lines and 5 live lines,
following the output. -/
def sampleWindow : ScreenWindow :=
  { _screen := { historyLines := 10, lines := 5, columns := 80, selection := none }
    _bufferNeedsUpdate := false
    _windowLines := 5
    _currentLine := 3
    _currentResultLine := 0
    _trackOutput := true
    _scrollCount := 0 }

/-- The sample window after `setWindowLines(20)`: a window of 20 lines over 15 lines of
output. -/
def tallWindow : ScreenWindow := sampleWindow.setWindowLines 20

/-- The sample window scrolled to its last valid top, line 10, and then made 8 lines
high by `setWindowLines(8)`: the current line is left above the new last valid top 7. -/
def staleWindow : ScreenWindow := (sampleWindow.scrollTo 10).setWindowLines 8

/-- The sample window after `setWindowLines(-4)`. -/
def negativeWindow : ScreenWindow := sampleWindow.setWindowLines (-4)

/-- A history line of one cell that does not continue on the next line. -/
def sampleLine : HistoryLine :=
  { cells := [{ character := 97, wideLeft := false }], wrapped := false }

/-- The path of the worked example, `/home/user/src`, in UTF-16. -/
def samplePath : Utf16String := utf16 "/home/user/src".toList

/-- The directory name `src` in UTF-16. -/
def sampleDirSrc : Utf16String := utf16 "src".toList

/-- The path `src/src`, every part of which is the directory name `src`. -/
def samplePathCommon : Utf16String := utf16 "src/src".toList

/-- A directory name that starts outside the Basic Multilingual Plane: the character
U+1F600 (the surrogate pair 55357, 56832) followed by `x`. -/
def sampleDirWide : Utf16String := utf16 (Char.ofNat 128512 :: "x".toList)

/-- The path `/home/` followed by the directory name `sampleDirWide`. -/
def samplePathWide : Utf16String := utf16 ("/home/".toList ++ Char.ofNat 128512 :: "x".toList)

/-- The directory name `src`. -/
def sampleSrc : QString := "src".toList

/-! ## ProcessInfo: the valid current directory (ProcessInfo.cpp) -/

namespace ProcessInfo

/-- Embeds `ProcessInfo::currentDir(bool *ok)`: the returned directory and the value stored
in `*ok`, which is whether the CURRENT_DIR flag is set. -/
def currentDir (p : ProcessInfo) : QString × Bool :=
  (p._currentDir, p._fields.testFlag Field.CURRENT_DIR)

/-- Embeds `LinuxProcessInfo::readCurrentDir`; `readlink pid` is the target of the link
`/proc/<pid>/cwd`, or `none` when `readlink` returns -1. -/
def readCurrentDirLinux (readlink : Int → Option QString) (pid : Int)
    (p : ProcessInfo) : ProcessInfo × Bool :=
  match readlink pid with
  | none => (p.setError Error.UnknownError, false)
  | some path => (p.setCurrentDir path, true)

/-- Embeds `ProcessInfo::update`, which calls the virtual `readCurrentDir(_pid)` and drops
its result. -/
def update (readCurrentDir : Int → ProcessInfo → ProcessInfo × Bool)
    (p : ProcessInfo) : ProcessInfo :=
  (readCurrentDir p._pid p).1

/-- The object `current` of the loop in `validCurrentDir` after
`ProcessInfo::newInstance(currentPid)` and `current->update()`. `newInstance` stands for
the platform object read in by `readProcessInfo`, whose code is not in this file. -/
def instantiate (newInstance : Int → ProcessInfo)
    (readCurrentDir : Int → ProcessInfo → ProcessInfo × Bool) (currentPid : Int) : ProcessInfo :=
  update readCurrentDir (newInstance currentPid)

/-- The while loop of `ProcessInfo::validCurrentDir` on the variables `ok`, `currentPid`
and `dir`, with the list of the pids for which a `ProcessInfo` was created so far. Every
round costs one unit of fuel; `none` means the fuel ran out before the loop ended. -/
def validCurrentDirLoop (newInstance : Int → ProcessInfo)
    (readCurrentDir : Int → ProcessInfo → ProcessInfo × Bool) :
    Nat → Bool → Int → QString → List Int → Option (QString × List Int)
  | 0, ok, currentPid, dir, created =>
    if !ok && decide (currentPid ≠ 0) then none else some (dir, created)
  | fuel + 1, ok, currentPid, dir, created =>
    if !ok && decide (currentPid ≠ 0) then
      let current := instantiate newInstance readCurrentDir currentPid
      validCurrentDirLoop newInstance readCurrentDir fuel current.currentDir.2
        current.parentPid.1 current.currentDir.1 (created ++ [currentPid])
    else some (dir, created)

/-- Embeds `ProcessInfo::validCurrentDir`: the returned directory, and the pids of the
`ProcessInfo` objects it created on the way. -/
def validCurrentDir (newInstance : Int → ProcessInfo)
    (readCurrentDir : Int → ProcessInfo → ProcessInfo × Bool) (fuel : Nat)
    (p : ProcessInfo) : Option (QString × List Int) :=
  validCurrentDirLoop newInstance readCurrentDir fuel p.currentDir.2 p.parentPid.1
    p.currentDir.1 []

/-- The walk up the parent pids that starts at `pid` visits exactly the processes `pids`:
each of them is the parent of the one before, none has pid 0, all but the last have no
valid current directory, and the last one has a valid current directory or parent
pid 0. -/
def StopsAfter (newInstance : Int → ProcessInfo)
    (readCurrentDir : Int → ProcessInfo → ProcessInfo × Bool) : Int → List Int → Prop
  | _, [] => False
  | pid, [q] =>
    q = pid ∧ pid ≠ 0 ∧
      ((instantiate newInstance readCurrentDir pid).currentDir.2 = true ∨
        (instantiate newInstance readCurrentDir pid).parentPid.1 = 0)
  | pid, q :: q2 :: qs =>
    q = pid ∧ pid ≠ 0 ∧
      (instantiate newInstance readCurrentDir pid).currentDir.2 = false ∧
      StopsAfter newInstance readCurrentDir
        (instantiate newInstance readCurrentDir pid).parentPid.1 (q2 :: qs)

/-- A process table for the worked example: process 20 is a child of process 10, every
other pid is unknown. -/
def sampleNewInstance (pid : Int) : ProcessInfo :=
  if pid = 20 then ((new 20).setParentPid 10).setPid 20
  else if pid = 10 then ((new 10).setParentPid 1).setPid 10
  else new pid

/-- The links `/proc/<pid>/cwd` of the worked example: only that of process 10 can be
read. -/
def sampleReadlink (pid : Int) : Option QString :=
  if pid = 10 then some "/home".toList else none

/-- A process 30, child of process 20, whose own current directory was not read. -/
def sampleProcess : ProcessInfo := ((new 30).setParentPid 20).setPid 30

/-- A process table in which every process names itself as its parent, as no real
process tree does. -/
def loopingNewInstance (pid : Int) : ProcessInfo := ((new pid).setParentPid pid).setPid pid

end ProcessInfo

/-! # Properties -/

/-! ## Screen window -/

namespace ScreenWindow

theorem scrollTo_currentLine (w : ScreenWindow) (line : Int) :
    (w.scrollTo line).currentLine = qBound 0 line (w.lineCount - w.windowLines) := rfl

theorem scrollTo_lineCount (w : ScreenWindow) (line : Int) :
    (w.scrollTo line).lineCount = w.lineCount := rfl

theorem scrollTo_windowLines (w : ScreenWindow) (line : Int) :
    (w.scrollTo line).windowLines = w.windowLines := rfl

theorem qBound_nonneg (value hi : Int) : 0 ≤ qBound 0 value hi := by
  unfold qBound
  exact le_max_left _ _

theorem qBound_le (value hi : Int) (h : 0 ≤ hi) : qBound 0 value hi ≤ hi := by
  unfold qBound
  exact max_le h (min_le_left _ _)

theorem qBound_inside (value hi : Int) (h0 : 0 ≤ value) (h1 : value ≤ hi) :
    qBound 0 value hi = value := by
  unfold qBound
  rw [min_eq_right h1, max_eq_right h0]

theorem qBound_below (value hi : Int) (h : value < 0) : qBound 0 value hi = 0 := by
  unfold qBound
  exact max_eq_left (le_trans (min_le_right _ _) (le_of_lt h))

theorem qBound_above (value hi : Int) (h0 : 0 ≤ hi) (h : hi < value) :
    qBound 0 value hi = hi := by
  unfold qBound
  rw [min_eq_left (le_of_lt h), max_eq_right h0]

theorem qBound_mono (a b hi : Int) (h : a ≤ b) : qBound 0 a hi ≤ qBound 0 b hi := by
  unfold qBound
  exact max_le_max (le_refl _) (min_le_min (le_refl _) h)

/-- C1 (what holds instead): when the window fits in the output
(`windowLines() ≤ lineCount()`, so that the valid range is not empty), for every integer
`line`, `scrollTo(line)` leaves `currentLine()` between 0 and
`lineCount() - windowLines()`; it is `line` itself when `line` lies in that range, 0 when
`line` is negative, and `lineCount() - windowLines()` when `line` is above the range. -/
theorem scrollTo_clamps (w : ScreenWindow) (line : Int)
    (hfit : w.windowLines ≤ w.lineCount) :
    (0 ≤ (w.scrollTo line).currentLine ∧
      (w.scrollTo line).currentLine ≤
        (w.scrollTo line).lineCount - (w.scrollTo line).windowLines) ∧
    (0 ≤ line → line ≤ w.lineCount - w.windowLines → (w.scrollTo line).currentLine = line) ∧
    (line < 0 → (w.scrollTo line).currentLine = 0) ∧
    (w.lineCount - w.windowLines < line →
      (w.scrollTo line).currentLine = w.lineCount - w.windowLines) := by
  have hhi : (0 : Int) ≤ w.lineCount - w.windowLines := by omega
  rw [scrollTo_currentLine, scrollTo_lineCount, scrollTo_windowLines]
  exact ⟨⟨qBound_nonneg _ _, qBound_le _ _ hhi⟩, qBound_inside _ _, qBound_below _ _,
    qBound_above _ _ hhi⟩

theorem scrollTo_clamps_witness :
    sampleWindow.windowLines ≤ sampleWindow.lineCount ∧
    (sampleWindow.scrollTo 12).currentLine = 10 := by
  have h := scrollTo_clamps sampleWindow 12 (by decide)
  exact ⟨by decide, h.2.2.2 (by decide)⟩

/-- C1 as first stated fails for a window taller than the output: over 15 lines of
output a window of 20 lines has the empty range from 0 to -5; `scrollTo(100)` leaves
`currentLine()` at 0, which is neither in that range nor its upper end. -/
theorem scrollTo_taller_window :
    tallWindow.windowLines = 20 ∧ tallWindow.lineCount = 15 ∧
    (tallWindow.scrollTo 100).currentLine = 0 ∧
    ¬ ((tallWindow.scrollTo 100).currentLine ≤
      (tallWindow.scrollTo 100).lineCount - (tallWindow.scrollTo 100).windowLines) ∧
    ¬ (tallWindow.lineCount - tallWindow.windowLines < 100 →
      (tallWindow.scrollTo 100).currentLine = tallWindow.lineCount - tallWindow.windowLines) := by
  decide

theorem le_qBound (current value hi : Int) (hcur : current ≤ max 0 hi)
    (hv : current ≤ value) : current ≤ qBound 0 value hi := by
  unfold qBound
  rcases le_max_iff.1 hcur with h | h
  · exact le_trans h (le_max_left _ _)
  · exact le_trans (le_min h hv) (le_max_right _ _)

/-- C2 (what holds instead): `scrollBy(ScrollLines, amount, _)` is
`scrollTo(currentLine() + amount)`,
`scrollBy(ScrollPages, amount, true)` is `scrollTo(currentLine() + amount * windowLines())`
and `scrollBy(ScrollPages, amount, false)` is
`scrollTo(currentLine() + amount * (windowLines() / 2))`, in every window state; in a
window whose height is not negative and whose current line is not above the last valid
top (`currentLine() ≤ max(0, lineCount() - windowLines())`), a positive amount never
decreases `currentLine()`. -/
theorem scrollBy_spec (w : ScreenWindow) (amount : Int) :
    (∀ fullPage, w.scrollBy RelativeScrollMode.ScrollLines amount fullPage =
      w.scrollTo (w.currentLine + amount)) ∧
    w.scrollBy RelativeScrollMode.ScrollPages amount true =
      w.scrollTo (w.currentLine + amount * w.windowLines) ∧
    w.scrollBy RelativeScrollMode.ScrollPages amount false =
      w.scrollTo (w.currentLine + amount * (w.windowLines.tdiv 2)) ∧
    (0 ≤ w.windowLines → w.currentLine ≤ max 0 (w.lineCount - w.windowLines) → 0 < amount →
      ∀ mode fullPage, w.currentLine ≤ (w.scrollBy mode amount fullPage).currentLine) := by
  refine ⟨fun _ => rfl, rfl, rfl, ?_⟩
  intro hwin hcl hpos mode fullPage
  have hhalf : 0 ≤ w.windowLines.tdiv 2 := Int.tdiv_nonneg hwin (by decide)
  have hfull : 0 ≤ amount * w.windowLines := mul_nonneg (le_of_lt hpos) hwin
  have hhalf2 : 0 ≤ amount * w.windowLines.tdiv 2 := mul_nonneg (le_of_lt hpos) hhalf
  cases mode with
  | ScrollLines =>
    show w.currentLine ≤ qBound 0 (w.currentLine + amount) (w.lineCount - w.windowLines)
    exact le_qBound _ _ _ hcl (by omega)
  | ScrollPages =>
    cases fullPage with
    | true =>
      show w.currentLine ≤
        qBound 0 (w.currentLine + amount * w.windowLines) (w.lineCount - w.windowLines)
      exact le_qBound _ _ _ hcl (by omega)
    | false =>
      show w.currentLine ≤
        qBound 0 (w.currentLine + amount * w.windowLines.tdiv 2) (w.lineCount - w.windowLines)
      exact le_qBound _ _ _ hcl (by omega)

theorem scrollBy_spec_witness :
    (0 ≤ sampleWindow.windowLines ∧
      sampleWindow.currentLine ≤ max 0 (sampleWindow.lineCount - sampleWindow.windowLines) ∧
      (0 : Int) < 2) ∧
    sampleWindow.currentLine ≤
      (sampleWindow.scrollBy RelativeScrollMode.ScrollPages 2 false).currentLine ∧
    (sampleWindow.scrollBy RelativeScrollMode.ScrollPages 2 false).currentLine = 7 := by
  have hcl : sampleWindow.currentLine ≤
      max 0 (sampleWindow.lineCount - sampleWindow.windowLines) := by decide
  exact ⟨⟨by decide, hcl, by decide⟩,
    (scrollBy_spec sampleWindow 2).2.2.2 (by decide) hcl (by decide) _ _, by decide⟩

/-- C2 as first stated fails in a window whose current line lies above the last valid
top: after `scrollTo(10)` and `setWindowLines(8)` the current line is 10 and the last
valid top is 7, and `scrollBy(ScrollLines, 1, _)` moves the window up to line 7. It also
fails for a negative window height, where a page forward is a step back: with
`windowLines() = -4`, `scrollBy(ScrollPages, 1, true)` moves the window from line 3 to
line 0. -/
theorem scrollBy_positive_decreases :
    (staleWindow.currentLine = 10 ∧
      (staleWindow.scrollBy RelativeScrollMode.ScrollLines 1 true).currentLine = 7 ∧
      ¬ (staleWindow.currentLine ≤
        (staleWindow.scrollBy RelativeScrollMode.ScrollLines 1 true).currentLine)) ∧
    (negativeWindow.currentLine = 3 ∧
      (negativeWindow.scrollBy RelativeScrollMode.ScrollPages 1 true).currentLine = 0 ∧
      ¬ (negativeWindow.currentLine ≤
        (negativeWindow.scrollBy RelativeScrollMode.ScrollPages 1 true).currentLine)) := by
  decide

/-- C3 (what holds instead): in a window that fits in the output
(`windowLines() ≤ lineCount()`) and has `trackOutput()` true, whatever the current line was, `notifyOutputChanged()` leaves the
window at the bottom: `atEndOfOutput()` is true and `currentLine()` is
`historyLines + liveLines - windowLines`; with `trackOutput()` false
`notifyOutputChanged()` leaves `currentLine()` where it was. -/
theorem notifyOutputChanged_spec (w : ScreenWindow) :
    (w.trackOutput = true → w.windowLines ≤ w.lineCount →
      w.notifyOutputChanged.atEndOfOutput = true ∧
      w.notifyOutputChanged.currentLine =
        (w._screen.historyLines : Int) + (w._screen.lines : Int) - w.windowLines) ∧
    (w.trackOutput = false → w.notifyOutputChanged.currentLine = w.currentLine) := by
  constructor
  · intro htrack hfit
    have hhi : (0 : Int) ≤ w.lineCount - w.windowLines := by omega
    have hcur : w.notifyOutputChanged.currentLine = w.lineCount - w.windowLines := by
      have htrack2 : w._trackOutput = true := htrack
      unfold notifyOutputChanged
      rw [if_pos htrack2]
      show qBound 0 (w.lineCount - w.windowLines) (w.lineCount - w.windowLines) = _
      exact qBound_inside _ _ hhi (le_refl _)
    have hlc : w.notifyOutputChanged.lineCount = w.lineCount := by
      unfold notifyOutputChanged
      split <;> rfl
    have hwl : w.notifyOutputChanged.windowLines = w.windowLines := by
      unfold notifyOutputChanged
      split <;> rfl
    refine ⟨?_, hcur⟩
    unfold atEndOfOutput
    rw [hcur, hlc, hwl]
    exact decide_eq_true rfl
  · intro htrack
    have htrack2 : w._trackOutput = false := htrack
    unfold notifyOutputChanged
    rw [htrack2]
    rfl

theorem notifyOutputChanged_spec_witness :
    (sampleWindow.trackOutput = true ∧ sampleWindow.windowLines ≤ sampleWindow.lineCount) ∧
    sampleWindow.notifyOutputChanged.atEndOfOutput = true ∧
    sampleWindow.notifyOutputChanged.currentLine = 10 ∧
    (sampleWindow.setTrackOutput false).notifyOutputChanged.currentLine = 3 := by
  have h := (notifyOutputChanged_spec sampleWindow).1 rfl (by decide)
  exact ⟨⟨rfl, by decide⟩, h.1, by decide,
    (notifyOutputChanged_spec (sampleWindow.setTrackOutput false)).2 rfl⟩

/-- C3 as first stated fails for a tracking window taller than the output: over 15 lines
of output a window of 20 lines is left at line 0 by `notifyOutputChanged()`, which is not
`historyLines + liveLines - windowLines = -5`, and `atEndOfOutput()` is false. -/
theorem notifyOutputChanged_taller_window :
    tallWindow.trackOutput = true ∧
    tallWindow.notifyOutputChanged.atEndOfOutput = false ∧
    tallWindow.notifyOutputChanged.currentLine = 0 ∧
    (tallWindow._screen.historyLines : Int) + (tallWindow._screen.lines : Int) -
      tallWindow.windowLines = -5 ∧
    ¬ (tallWindow.notifyOutputChanged.atEndOfOutput = true ∧
      tallWindow.notifyOutputChanged.currentLine =
        (tallWindow._screen.historyLines : Int) + (tallWindow._screen.lines : Int) -
          tallWindow.windowLines) := by
  decide

/-- C4: `scrollTo(x)` leaves the selection as it was, so `isSelected(col, line)` gives the
same answer before and after it for every coordinate; the anchors are absolute and do not
depend on the current line. -/
theorem isSelected_scrollTo (w : ScreenWindow) (column line x : Int) :
    (w.scrollTo x).isSelected column line = w.isSelected column line ∧
    (w.scrollTo x)._screen.selection = w._screen.selection := ⟨rfl, rfl⟩

/-- The column-mode scenario of the design document: after `setSelectionStart(2, 0, true)`
and `setSelectionEnd(5, 0, false)` column 3 of line 0 is selected and column 6 is not,
also after scrolling. -/
theorem isSelected_sample :
    ((sampleWindow.setSelectionStart 2 0 true).setSelectionEnd 5 0 false).isSelected 3 0 = true ∧
    ((sampleWindow.setSelectionStart 2 0 true).setSelectionEnd 5 0 false).isSelected 6 0 = false ∧
    ((((sampleWindow.setSelectionStart 2 0 true).setSelectionEnd 5 0 false).scrollTo 9).isSelected
      3 0) = true := by
  decide

end ScreenWindow

/-! ## History reflow -/

theorem chainsFrom_replicate_sampleLine (n : Nat) :
    chainsFrom none (List.replicate n sampleLine) = List.replicate n sampleLine.cells := by
  induction n with
  | zero => rfl
  | succ n ih =>
    rw [List.replicate_succ, List.replicate_succ]
    show (sampleLine.cells :: chainsFrom none (List.replicate n sampleLine)) = _
    rw [ih]

theorem sliceChain_sampleLine (columns : Nat) (h : 1 ≤ columns) :
    sliceChain columns (sampleLine.cells.length + 1) sampleLine.cells = [sampleLine] := by
  show (if 1 ≤ columns then [sampleLine] else _) = [sampleLine]
  rw [if_pos h]

theorem reflowAll_replicate_sampleLine (columns n : Nat) (h : 1 ≤ columns) :
    reflowAll columns (List.replicate n sampleLine) = List.replicate n sampleLine := by
  unfold reflowAll
  rw [chainsFrom_replicate_sampleLine]
  induction n with
  | zero => rfl
  | succ n ih =>
    rw [List.replicate_succ, List.map_cons, List.flatten_cons, ih,
      sliceChain_sampleLine columns h]
    rfl

/-- C5: a call `reflowLines(columns)` materialises at most `MAX_REFLOW_LINES` (20000)
lines, for every history store and every column count; when the call materialised exactly
that many, the line count it returns and the number of lines in the store are the cap;
and the cap is reached whenever an unbounded reflow to more than one column would have
produced at least that many lines. -/
theorem reflowLines_bounded (columns : Int) (h : History) :
    (reflowLines columns h).materialised ≤ MAX_REFLOW_LINES ∧
    MAX_REFLOW_LINES = 20000 ∧
    ((reflowLines columns h).materialised = MAX_REFLOW_LINES →
      (reflowLines columns h).reflowedLineCount = MAX_REFLOW_LINES ∧
      (reflowLines columns h).store.length = MAX_REFLOW_LINES) ∧
    (1 < columns → MAX_REFLOW_LINES ≤ (reflowAll columns.toNat h).length →
      (reflowLines columns h).materialised = MAX_REFLOW_LINES) := by
  unfold reflowLines
  by_cases hc : columns ≤ 1
  · rw [if_pos hc]
    refine ⟨Nat.zero_le _, rfl, ?_, ?_⟩
    · intro hm
      have h0 : (0 : Nat) = MAX_REFLOW_LINES := hm
      exact absurd h0 (by decide)
    · intro h1
      omega
  · rw [if_neg hc]
    refine ⟨?_, rfl, ?_, ?_⟩
    · show ((reflowAll columns.toNat h).take MAX_REFLOW_LINES).length ≤ MAX_REFLOW_LINES
      rw [List.length_take]
      exact min_le_left _ _
    · intro hm
      exact ⟨hm, hm⟩
    · intro _ hlen
      show ((reflowAll columns.toNat h).take MAX_REFLOW_LINES).length = MAX_REFLOW_LINES
      rw [List.length_take]
      exact min_eq_left hlen

theorem reflowLines_bounded_witness :
    ((1 : Int) < 80 ∧
      MAX_REFLOW_LINES ≤ (reflowAll (80 : Int).toNat (List.replicate 20001 sampleLine)).length) ∧
    (reflowLines 80 (List.replicate 20001 sampleLine)).materialised = 20000 ∧
    (reflowLines 80 (List.replicate 20001 sampleLine)).reflowedLineCount = 20000 := by
  have hall : reflowAll (80 : Int).toNat (List.replicate 20001 sampleLine) =
      List.replicate 20001 sampleLine :=
    reflowAll_replicate_sampleLine _ _ (by decide)
  have hlen : MAX_REFLOW_LINES ≤
      (reflowAll (80 : Int).toNat (List.replicate 20001 sampleLine)).length := by
    rw [hall, List.length_replicate]
    decide
  have h := reflowLines_bounded 80 (List.replicate 20001 sampleLine)
  have hm := h.2.2.2 (by decide) hlen
  exact ⟨⟨by decide, hlen⟩, hm, (h.2.2.1 hm).1⟩

/-! ## QString.split -/

theorem split_ne_nil {α : Type} [DecidableEq α] (sep : α) (s : List α) : split sep s ≠ [] := by
  induction s with
  | nil => simp [split]
  | cons c cs ih =>
    unfold split
    split
    · simp
    · split <;> simp

theorem split_cons_sep {α : Type} [DecidableEq α] (sep : α) (cs : List α) :
    split sep (sep :: cs) = [] :: split sep cs := by
  rw [split, if_pos rfl]

theorem split_cons_other {α : Type} [DecidableEq α] (sep c : α) (cs : List α) (h : c ≠ sep) :
    ∃ p ps, split sep cs = p :: ps ∧ split sep (c :: cs) = (c :: p) :: ps := by
  cases hs : split sep cs with
  | nil => exact absurd hs (split_ne_nil sep cs)
  | cons p ps =>
    refine ⟨p, ps, rfl, ?_⟩
    rw [split, if_neg h, hs]

/-- No piece of a split holds the separator. -/
theorem split_no_sep {α : Type} [DecidableEq α] (sep : α) (s : List α) :
    ∀ p ∈ split sep s, sep ∉ p := by
  induction s with
  | nil =>
    intro p hp
    simp [split] at hp
    simp [hp]
  | cons c cs ih =>
    intro p hp
    by_cases h : c = sep
    · subst h
      rw [split_cons_sep] at hp
      rcases List.mem_cons.1 hp with h1 | h1
      · simp [h1]
      · exact ih p h1
    · obtain ⟨q, qs, hq, hc⟩ := split_cons_other sep c cs h
      rw [hc] at hp
      rw [hq] at ih
      rcases List.mem_cons.1 hp with h1 | h1
      · rw [h1]
        intro hmem
        rcases List.mem_cons.1 hmem with h2 | h2
        · exact h h2.symm
        · exact ih q (List.mem_cons_self _ _) h2
      · exact ih p (List.mem_cons_of_mem _ h1)

/-- Joining the pieces of a split with the separator gives the text back. -/
theorem split_intercalate {α : Type} [DecidableEq α] (sep : α) (s : List α) :
    List.intercalate [sep] (split sep s) = s := by
  induction s with
  | nil => simp [split, List.intercalate]
  | cons c cs ih =>
    by_cases h : c = sep
    · subst h
      rw [split_cons_sep]
      cases hs : split c cs with
      | nil => exact absurd hs (split_ne_nil c cs)
      | cons q qs =>
        rw [hs] at ih
        simp only [List.intercalate, List.intersperse, List.flatten_cons, List.nil_append,
          List.singleton_append] at ih ⊢
        rw [ih]
    · obtain ⟨q, qs, hq, hc⟩ := split_cons_other sep c cs h
      rw [hc]
      rw [hq] at ih
      cases qs with
      | nil =>
        simp only [List.intercalate, List.intersperse, List.flatten_cons, List.flatten_nil,
          List.append_nil] at ih ⊢
        rw [ih]
      | cons r rs =>
        simp only [List.intercalate, List.intersperse, List.flatten_cons, List.cons_append] at ih ⊢
        rw [ih]

/-- The pieces of a split, put together, are the text without its separators. -/
theorem split_flatten {α : Type} [DecidableEq α] (sep : α) (s : List α) :
    (split sep s).flatten = s.filter (fun c => !decide (c = sep)) := by
  induction s with
  | nil => simp [split]
  | cons c cs ih =>
    by_cases h : c = sep
    · subst h
      rw [split_cons_sep]
      simp [ih]
    · obtain ⟨q, qs, hq, hc⟩ := split_cons_other sep c cs h
      rw [hc]
      rw [hq] at ih
      simp only [List.flatten_cons, List.cons_append] at ih ⊢
      rw [ih]
      simp [h]

/-! ## ProcessInfo -/

namespace ProcessInfo

theorem formatShortDirLoop_common (common : List Utf16String) (rs more : List Utf16String)
    (k : Utf16String) (hk : k ∉ common) (hrs : ∀ r ∈ rs, r ∈ common ∧ r ≠ [])
    (result : Utf16String) :
    formatShortDirLoop common (rs ++ k :: more) result =
      some (k ++ (rs.reverse.map abbreviation).flatten ++ result) := by
  induction rs generalizing result with
  | nil =>
    simp [formatShortDirLoop, hk]
  | cons r rs ih =>
    have hr := hrs r (List.mem_cons_self _ _)
    have hc : common.contains r = true := by simpa using hr.1
    have hrest : ∀ x ∈ rs, x ∈ common ∧ x ≠ [] :=
      fun x hx => hrs x (List.mem_cons_of_mem _ hx)
    cases r with
    | nil => exact absurd rfl hr.2
    | cons c cs =>
      rw [List.cons_append, formatShortDirLoop, if_pos hc]
      show formatShortDirLoop common (rs ++ k :: more) (separator :: c :: result) = _
      rw [ih hrest]
      simp [abbreviation]

theorem formatShortDirLoop_all_common (common : List Utf16String) (rs : List Utf16String)
    (hrs : ∀ r ∈ rs, r ∈ common ∧ r ≠ []) (result : Utf16String) :
    formatShortDirLoop common rs result =
      some ((rs.reverse.map abbreviation).flatten ++ result) := by
  induction rs generalizing result with
  | nil => simp [formatShortDirLoop]
  | cons r rs ih =>
    have hr := hrs r (List.mem_cons_self _ _)
    have hc : common.contains r = true := by simpa using hr.1
    have hrest : ∀ x ∈ rs, x ∈ common ∧ x ≠ [] :=
      fun x hx => hrs x (List.mem_cons_of_mem _ hx)
    cases r with
    | nil => exact absurd rfl hr.2
    | cons c cs =>
      rw [formatShortDirLoop, if_pos hc]
      show formatShortDirLoop common rs (separator :: c :: result) = _
      rw [ih hrest]
      simp [abbreviation]

/-- C6 (what holds instead): for every input path other than "/" and every set of common
directory names, `formatShortDir` walks the separator-split parts from last to first and
abbreviates each common part to the separator followed by its first UTF-16 code unit.
When the parts are `pre`, then `k`, then `suf`, with `k` not a common name and every part
of `suf` a non-empty common name, it stops at `k` and returns `k` in full followed by the
abbreviations of the parts of `suf` in path order, with nothing of `pre`; when every part
is a non-empty common name it stops nowhere and returns the abbreviations of all
parts. -/
theorem formatShortDir_spec (commonDirNames : List Utf16String) (input : Utf16String)
    (hinput : input ≠ [QLatin1Char '/']) :
    (∀ (pre suf : List Utf16String) (k : Utf16String),
      split separator input = pre ++ k :: suf →
      k ∉ commonDirNames →
      (∀ part ∈ suf, part ∈ commonDirNames ∧ part ≠ []) →
      formatShortDir commonDirNames input = some (k ++ (suf.map abbreviation).flatten)) ∧
    ((∀ part ∈ split separator input, part ∈ commonDirNames ∧ part ≠ []) →
      formatShortDir commonDirNames input =
        some (((split separator input).map abbreviation).flatten)) := by
  constructor
  · intro pre suf k hparts hk hsuf
    unfold formatShortDir
    rw [if_neg hinput, hparts, List.reverse_append, List.reverse_cons, List.append_assoc,
      List.singleton_append]
    have hrs : ∀ r ∈ suf.reverse, r ∈ commonDirNames ∧ r ≠ [] :=
      fun r hr => hsuf r (List.mem_reverse.1 hr)
    rw [formatShortDirLoop_common commonDirNames suf.reverse pre.reverse k hk hrs []]
    simp
  · intro hall
    unfold formatShortDir
    have hrs : ∀ r ∈ (split separator input).reverse, r ∈ commonDirNames ∧ r ≠ [] :=
      fun r hr => hall r (List.mem_reverse.1 hr)
    rw [if_neg hinput, formatShortDirLoop_all_common commonDirNames _ hrs []]
    simp

theorem formatShortDir_spec_witness :
    (samplePath ≠ [QLatin1Char '/'] ∧
      split separator samplePath = [[], utf16 "home".toList] ++ utf16 "user".toList :: [sampleDirSrc] ∧
      utf16 "user".toList ∉ [sampleDirSrc] ∧
      ∀ part ∈ [sampleDirSrc], part ∈ [sampleDirSrc] ∧ part ≠ []) ∧
    formatShortDir [sampleDirSrc] samplePath = some (utf16 "user/s".toList) ∧
    (samplePathWide ≠ [QLatin1Char '/'] ∧
      split separator samplePathWide = [[]] ++ utf16 "home".toList :: [sampleDirWide] ∧
      utf16 "home".toList ∉ [sampleDirWide] ∧
      ∀ part ∈ [sampleDirWide], part ∈ [sampleDirWide] ∧ part ≠ []) ∧
    sampleDirWide = [55357, 56832, 120] ∧
    formatShortDir [sampleDirWide] samplePathWide = some (utf16 "home/".toList ++ [55357]) ∧
    (samplePathCommon ≠ [QLatin1Char '/'] ∧
      ∀ part ∈ split separator samplePathCommon, part ∈ [sampleDirSrc] ∧ part ≠ []) ∧
    formatShortDir [sampleDirSrc] samplePathCommon = some (utf16 "/s/s".toList) := by
  have h1 : samplePath ≠ [QLatin1Char '/'] := by decide
  have h2 : split separator samplePath =
      [[], utf16 "home".toList] ++ utf16 "user".toList :: [sampleDirSrc] := by decide
  have h3 : utf16 "user".toList ∉ [sampleDirSrc] := by decide
  have h4 : ∀ part ∈ [sampleDirSrc], part ∈ [sampleDirSrc] ∧ part ≠ [] := by decide
  have g1 : samplePathWide ≠ [QLatin1Char '/'] := by decide
  have g2 : split separator samplePathWide =
      [[]] ++ utf16 "home".toList :: [sampleDirWide] := by decide
  have g3 : utf16 "home".toList ∉ [sampleDirWide] := by decide
  have g4 : ∀ part ∈ [sampleDirWide], part ∈ [sampleDirWide] ∧ part ≠ [] := by decide
  have c1 : samplePathCommon ≠ [QLatin1Char '/'] := by decide
  have c2 : ∀ part ∈ split separator samplePathCommon, part ∈ [sampleDirSrc] ∧ part ≠ [] := by
    decide
  have w1 := (formatShortDir_spec [sampleDirSrc] samplePath h1).1 _ _ _ h2 h3 h4
  have w2 := (formatShortDir_spec [sampleDirWide] samplePathWide g1).1 _ _ _ g2 g3 g4
  have w3 := (formatShortDir_spec [sampleDirSrc] samplePathCommon c1).2 c2
  refine ⟨⟨h1, h2, h3, h4⟩, ?_, ⟨g1, g2, g3, g4⟩, by decide, ?_, ⟨c1, c2⟩, ?_⟩
  · rw [w1]
    decide
  · rw [w2]
    decide
  · rw [w3]
    decide

/-- C6 as first stated fails on a path all of whose parts are common: with
`commonDirNames = {src}` the path `src/src` has no part outside `commonDirNames`, so no
part is kept in full, and the result `/s/s` is not a part followed by abbreviations. -/
theorem formatShortDir_no_kept_part :
    samplePathCommon ≠ [QLatin1Char '/'] ∧
    split separator samplePathCommon = [sampleDirSrc, sampleDirSrc] ∧
    formatShortDir [sampleDirSrc] samplePathCommon = some (utf16 "/s/s".toList) ∧
    ¬ ∃ (pre suf : List Utf16String) (k : Utf16String),
      split separator samplePathCommon = pre ++ k :: suf ∧
      k ∉ [sampleDirSrc] ∧
      (∀ part ∈ suf, part ∈ [sampleDirSrc]) ∧
      formatShortDir [sampleDirSrc] samplePathCommon =
        some (k ++ (suf.map abbreviation).flatten) := by
  have hs : split separator samplePathCommon = [sampleDirSrc, sampleDirSrc] := by decide
  refine ⟨by decide, hs, by decide, ?_⟩
  rintro ⟨pre, suf, k, hparts, hk, _, _⟩
  have hmem : k ∈ split separator samplePathCommon := by
    rw [hparts]
    simp
  rw [hs] at hmem
  apply hk
  simp only [List.mem_cons, List.mem_singleton, List.not_mem_nil, or_false, or_self] at hmem ⊢
  exact hmem

theorem foldl_addArgument (entries : List QString) (p : ProcessInfo) :
    (entries.foldl (fun q entry => if !entry.isEmpty then q.addArgument entry else q) p)._arguments =
      p._arguments ++ entries.filter (fun e => !e.isEmpty) := by
  induction entries generalizing p with
  | nil => simp
  | cons e es ih =>
    rw [List.foldl_cons, ih]
    cases e with
    | nil => simp
    | cons c cs => simp [addArgument]

/-- C9: when `/proc/<pid>/cmdline` can be opened and holds `data`, `readArguments` appends
to the argument list the non-empty pieces of `data` between NUL characters, in their
order: the pieces are those that joined by NUL give `data` back, no added argument is
empty or holds a NUL, and the added arguments put together are `data` without its
NULs. -/
theorem readArguments_spec (data : QString) (fileError : FileError) (p : ProcessInfo) :
    (readArguments (some data) fileError p).1._arguments =
      p._arguments ++ (split nulChar data).filter (fun e => !e.isEmpty) ∧
    List.intercalate [nulChar] (split nulChar data) = data ∧
    (∀ a ∈ (split nulChar data).filter (fun e => !e.isEmpty), a ≠ [] ∧ nulChar ∉ a) ∧
    ((split nulChar data).filter (fun e => !e.isEmpty)).flatten =
      data.filter (fun c => !decide (c = nulChar)) ∧
    (readArguments (some data) fileError p).2 = true := by
  refine ⟨foldl_addArgument _ p, split_intercalate _ _, ?_, ?_, rfl⟩
  · intro a ha
    rw [List.mem_filter] at ha
    refine ⟨?_, split_no_sep nulChar data a ha.1⟩
    intro h
    rw [h] at ha
    simp at ha
  · rw [← split_flatten]
    generalize split nulChar data = parts
    induction parts with
    | nil => rfl
    | cons q qs ih =>
      cases q with
      | nil => simpa using ih
      | cons c cs => simp [List.filter_cons, ih]

theorem step_fields_arguments (homeDir : QString → QString) (homePath : QString)
    (p : ProcessInfo) (c : Call) (h : p._fields.testFlag Field.ARGUMENTS = true) :
    (step homeDir homePath p c)._fields.testFlag Field.ARGUMENTS = true := by
  cases c with
  | setFileError e => cases e <;> exact h
  | setError e => exact h
  | setUserName n => exact h
  | setUserNameRequired need => exact h
  | addArgument a => exact h
  | clearArguments => exact h
  | setPid pid => simpa [step, setPid, Fields.set, Fields.testFlag] using h
  | setUserId uid => simpa [step, setUserId, Fields.set, Fields.testFlag] using h
  | setParentPid pid => simpa [step, setParentPid, Fields.set, Fields.testFlag] using h
  | setForegroundPid pid => simpa [step, setForegroundPid, Fields.set, Fields.testFlag] using h
  | setCurrentDir dir => simpa [step, setCurrentDir, Fields.set, Fields.testFlag] using h
  | setName n => simpa [step, setName, Fields.set, Fields.testFlag] using h

theorem run_fields_arguments (homeDir : QString → QString) (homePath : QString)
    (calls : List Call) (p : ProcessInfo) (h : p._fields.testFlag Field.ARGUMENTS = true) :
    (run homeDir homePath p calls)._fields.testFlag Field.ARGUMENTS = true := by
  induction calls generalizing p with
  | nil => exact h
  | cons c cs ih => exact ih _ (step_fields_arguments homeDir homePath p c h)

theorem run_arguments_nil (homeDir : QString → QString) (homePath : QString)
    (calls : List Call) (hno : ∀ a, Call.addArgument a ∉ calls)
    (p : ProcessInfo) (h : p._arguments = []) :
    (run homeDir homePath p calls)._arguments = [] := by
  induction calls generalizing p with
  | nil => exact h
  | cons c cs ih =>
    have hcs : ∀ a, Call.addArgument a ∉ cs := fun a ha => hno a (List.mem_cons_of_mem _ ha)
    apply ih hcs
    cases c with
    | addArgument a => exact absurd (List.mem_cons_self _ _) (hno a)
    | setFileError e => cases e <;> exact h
    | clearArguments => rfl
    | setError e => exact h
    | setUserName n => exact h
    | setUserNameRequired need => exact h
    | setPid pid => exact h
    | setUserId uid => exact h
    | setParentPid pid => exact h
    | setForegroundPid pid => exact h
    | setCurrentDir dir => exact h
    | setName n => exact h

/-- C10: for every `ProcessInfo` reached from construction by any sequence of setter,
`addArgument` and `clearArguments` calls, `arguments(&ok)` sets `ok` to true; the vector
it returns is empty when the sequence holds no `addArgument`, and when none follows its
last `clearArguments`. -/
theorem arguments_always_valid (homeDir : QString → QString) (homePath : QString)
    (pid : Int) (calls : List Call) :
    (run homeDir homePath (new pid) calls).arguments.2 = true ∧
    ((∀ a, Call.addArgument a ∉ calls) →
      (run homeDir homePath (new pid) calls).arguments.1 = []) ∧
    (∀ before after, calls = before ++ Call.clearArguments :: after →
      (∀ a, Call.addArgument a ∉ after) →
      (run homeDir homePath (new pid) calls).arguments.1 = []) := by
  refine ⟨run_fields_arguments homeDir homePath calls (new pid) rfl, ?_, ?_⟩
  · intro hno
    exact run_arguments_nil homeDir homePath calls hno (new pid) rfl
  · intro before after hcalls hno
    subst hcalls
    show (run homeDir homePath (new pid) (before ++ Call.clearArguments :: after))._arguments = []
    unfold run
    rw [List.foldl_append, List.foldl_cons]
    exact run_arguments_nil homeDir homePath after hno _ rfl

theorem arguments_always_valid_witness :
    (∀ a, Call.addArgument a ∉ [Call.setPid 7, Call.setName sampleSrc]) ∧
    ([Call.addArgument sampleSrc, Call.clearArguments, Call.setPid 7] =
        [Call.addArgument sampleSrc] ++ Call.clearArguments :: [Call.setPid 7] ∧
      ∀ a, Call.addArgument a ∉ [Call.setPid 7]) ∧
    (run id [] (new 1) [Call.setPid 7, Call.setName sampleSrc]).arguments = ([], true) ∧
    (run id [] (new 1)
      [Call.addArgument sampleSrc, Call.clearArguments, Call.setPid 7]).arguments.1 = [] ∧
    (run id [] (new 1) [Call.addArgument sampleSrc, Call.setPid 7]).arguments =
      ([sampleSrc], true) := by
  have h1 : ∀ a, Call.addArgument a ∉ [Call.setPid 7, Call.setName sampleSrc] := by
    intro a ha
    simp at ha
  have h2 : ∀ a, Call.addArgument a ∉ [Call.setPid 7] := by
    intro a ha
    simp at ha
  have w1 := arguments_always_valid id [] 1 [Call.setPid 7, Call.setName sampleSrc]
  have w2 := arguments_always_valid id [] 1
    [Call.addArgument sampleSrc, Call.clearArguments, Call.setPid 7]
  have w3 := arguments_always_valid id [] 1 [Call.addArgument sampleSrc, Call.setPid 7]
  refine ⟨h1, ⟨rfl, h2⟩, ?_, w2.2.2 [Call.addArgument sampleSrc] [Call.setPid 7] rfl h2, ?_⟩
  · exact Prod.ext (w1.2.1 h1) w1.1
  · exact Prod.ext rfl w3.1

/-! ### The stat field scan -/

theorem fieldText_cons (t k : Nat) (f : QString) (fs : List QString) :
    fieldText t k (f :: fs) = (if k + 1 = t then f else []) ++ fieldText t (k + 1) fs := by
  unfold fieldText
  by_cases h1 : k + 1 = t
  · have h2 : k < t := by omega
    have h3 : ¬ (k + 1 < t) := by omega
    have h4 : t - k - 1 = 0 := by omega
    rw [if_pos h1, if_pos h2, if_neg h3, h4]
    simp
  · by_cases h2 : k + 1 < t
    · have h3 : k < t := by omega
      have h4 : t - k - 1 = (t - (k + 1) - 1) + 1 := by omega
      rw [if_neg h1, if_pos h2, if_pos h3, h4, List.getD_cons_succ]
      simp
    · have h3 : ¬ (k < t) := by omega
      rw [if_neg h1, if_neg h2, if_neg h3]
      simp

/-- Characters other than parentheses, and other than a space outside parentheses, are
appended to the string of the current field and leave the counters alone. -/
theorem foldl_scanStep_text (cs : QString) (s : StatScan)
    (h : ∀ c ∈ cs, c ≠ '(' ∧ c ≠ ')' ∧ (s.stack = 0 → c ≠ ' ')) :
    cs.foldl scanStep s =
      { stack := s.stack
        field := s.field
        parentPidString := s.parentPidString ++ (if s.field = PARENT_PID_FIELD then cs else [])
        processNameString :=
          s.processNameString ++ (if s.field = PROCESS_NAME_FIELD then cs else [])
        foregroundPidString :=
          s.foregroundPidString ++ (if s.field = GROUP_PROCESS_FIELD then cs else []) } := by
  induction cs generalizing s with
  | nil => simp
  | cons c cs ih =>
    obtain ⟨stack, field, pp, pn, fg⟩ := s
    have hc := h c (List.mem_cons_self _ _)
    have htl : ∀ d ∈ cs, d ≠ '(' ∧ d ≠ ')' ∧ (stack = 0 → d ≠ ' ') :=
      fun d hd => h d (List.mem_cons_of_mem _ hd)
    simp only at hc
    have hsp : ¬ (stack = 0 ∧ c = ' ') := fun hh => hc.2.2 hh.1 hh.2
    rw [List.foldl_cons]
    simp only [scanStep, if_neg hc.1, if_neg hc.2.1, if_neg hsp, PARENT_PID_FIELD,
      PROCESS_NAME_FIELD, GROUP_PROCESS_FIELD] at ih ⊢
    by_cases h3 : field = 3
    · subst h3
      rw [if_pos rfl, ih _ htl]
      simp
    · by_cases h1 : field = 1
      · subst h1
        rw [if_neg h3, if_pos rfl, ih _ htl]
        simp
      · by_cases h7 : field = 7
        · subst h7
          rw [if_neg h3, if_neg h1, if_pos rfl, ih _ htl]
          simp
        · rw [if_neg h3, if_neg h1, if_neg h7, ih _ htl]
          simp [h3, h1, h7]

theorem foldl_scanStep_plain (cs : QString) (s : StatScan) (h : ∀ c ∈ cs, plainChar c) :
    cs.foldl scanStep s =
      { stack := s.stack
        field := s.field
        parentPidString := s.parentPidString ++ (if s.field = PARENT_PID_FIELD then cs else [])
        processNameString :=
          s.processNameString ++ (if s.field = PROCESS_NAME_FIELD then cs else [])
        foregroundPidString :=
          s.foregroundPidString ++ (if s.field = GROUP_PROCESS_FIELD then cs else []) } :=
  foldl_scanStep_text cs s (fun c hc => ⟨(h c hc).2.1, (h c hc).2.2, fun _ => (h c hc).1⟩)

/-- Outside parentheses every space-led field advances the field counter by one, and the
fields numbered 3, 1 and 7 end up in their strings. -/
theorem foldl_scanStep_fields (rest : List QString) (s : StatScan) (hs : s.stack = 0)
    (h : ∀ f ∈ rest, ∀ c ∈ f, plainChar c) :
    (rest.map (fun f => ' ' :: f)).flatten.foldl scanStep s =
      { stack := 0
        field := s.field + rest.length
        parentPidString := s.parentPidString ++ fieldText PARENT_PID_FIELD s.field rest
        processNameString := s.processNameString ++ fieldText PROCESS_NAME_FIELD s.field rest
        foregroundPidString :=
          s.foregroundPidString ++ fieldText GROUP_PROCESS_FIELD s.field rest } := by
  induction rest generalizing s with
  | nil =>
    obtain ⟨stack, field, pp, pn, fg⟩ := s
    simp only at hs
    simp [fieldText, hs]
  | cons f fs ih =>
    obtain ⟨stack, field, pp, pn, fg⟩ := s
    simp only at hs
    subst hs
    have hf := h f (List.mem_cons_self _ _)
    have hfs : ∀ g ∈ fs, ∀ c ∈ g, plainChar c := fun g hg => h g (List.mem_cons_of_mem _ hg)
    have hspace : scanStep
        { stack := 0, field := field, parentPidString := pp, processNameString := pn,
          foregroundPidString := fg } ' ' =
        { stack := 0, field := field + 1, parentPidString := pp, processNameString := pn,
          foregroundPidString := fg } := by
      simp [scanStep]
    rw [List.map_cons, List.flatten_cons, List.cons_append, List.foldl_cons, List.foldl_append,
      hspace, foldl_scanStep_plain f _ hf, ih _ rfl hfs]
    simp only [fieldText_cons, List.length_cons, List.append_assoc]
    congr 1
    omega

theorem scanStat_statText (pidField name : QString) (rest : List QString)
    (hpid : ∀ c ∈ pidField, plainChar c)
    (hname : ∀ c ∈ name, c ≠ '(' ∧ c ≠ ')')
    (hrest : ∀ f ∈ rest, ∀ c ∈ f, plainChar c) :
    scanStat (statText pidField name rest) =
      { stack := 0
        field := 1 + rest.length
        parentPidString := rest.getD 1 []
        processNameString := name
        foregroundPidString := rest.getD 5 [] } := by
  have e1 : pidField.foldl scanStep StatScan.init = StatScan.init := by
    rw [foldl_scanStep_text pidField StatScan.init
      (fun c hc => ⟨(hpid c hc).2.1, (hpid c hc).2.2, fun _ => (hpid c hc).1⟩)]
    simp [StatScan.init, PARENT_PID_FIELD, PROCESS_NAME_FIELD, GROUP_PROCESS_FIELD]
  have e2 : scanStep (scanStep StatScan.init ' ') '(' =
      { stack := 1, field := 1, parentPidString := [], processNameString := [],
        foregroundPidString := [] } := by
    simp [scanStep, StatScan.init]
  have e3 : name.foldl scanStep
      { stack := 1, field := 1, parentPidString := [], processNameString := [],
        foregroundPidString := [] } =
      { stack := 1, field := 1, parentPidString := [], processNameString := name,
        foregroundPidString := [] } := by
    rw [foldl_scanStep_text name _
      (fun c hc => ⟨(hname c hc).1, (hname c hc).2, fun h0 => absurd h0 (by decide)⟩)]
    simp [PARENT_PID_FIELD, PROCESS_NAME_FIELD, GROUP_PROCESS_FIELD]
  have e4 : scanStep
      { stack := 1, field := 1, parentPidString := [], processNameString := name,
        foregroundPidString := [] } ')' =
      { stack := 0, field := 1, parentPidString := [], processNameString := name,
        foregroundPidString := [] } := by
    simp [scanStep]
  simp only [scanStat, statText, List.foldl_append, List.foldl_cons]
  rw [e1, e2, e3, e4, foldl_scanStep_fields rest _ rfl hrest]
  simp [fieldText, PARENT_PID_FIELD, PROCESS_NAME_FIELD, GROUP_PROCESS_FIELD]

/-- C7: for a stat text whose process name stands in one pair of parentheses and holds no
parenthesis of its own (spaces allowed), the field scan of `readProcInfo` counts the whole
name as field 1, takes as name exactly the text between the parentheses, as parent pid
the text of field 3 and as foreground pid the text of field 7, the same texts as for the
name with its spaces taken out; `readProcInfo` then stores the numbers these texts parse
to, and the name. -/
theorem readProcInfo_stat_parenthesised_name (toInt : QString → Option Int) (pid : Int)
    (p : ProcessInfo) (pidField name : QString) (rest : List QString)
    (hpid : ∀ c ∈ pidField, plainChar c)
    (hname : ∀ c ∈ name, c ≠ '(' ∧ c ≠ ')')
    (hrest : ∀ f ∈ rest, ∀ c ∈ f, plainChar c) :
    ((scanStat (statText pidField name rest)).field = 1 + rest.length ∧
      (scanStat (statText pidField name rest)).processNameString = name ∧
      (scanStat (statText pidField name rest)).parentPidString = rest.getD 1 [] ∧
      (scanStat (statText pidField name rest)).foregroundPidString = rest.getD 5 []) ∧
    ((scanStat (statText pidField (name.filter (fun c => !decide (c = ' '))) rest)).parentPidString =
        (scanStat (statText pidField name rest)).parentPidString ∧
      (scanStat (statText pidField (name.filter (fun c => !decide (c = ' '))) rest)).foregroundPidString =
        (scanStat (statText pidField name rest)).foregroundPidString ∧
      (scanStat (statText pidField (name.filter (fun c => !decide (c = ' '))) rest)).field =
        (scanStat (statText pidField name rest)).field) ∧
    ((∀ v, toInt (rest.getD 1 []) = some v →
        (readProcInfoStat toInt pid (statText pidField name rest) p).1.parentPid = (v, true) ∧
        (readProcInfoStat toInt pid (statText pidField name rest) p).2 = true) ∧
      (∀ v, toInt (rest.getD 5 []) = some v →
        (readProcInfoStat toInt pid (statText pidField name rest) p).1.foregroundPid = (v, true)) ∧
      (name ≠ [] →
        (readProcInfoStat toInt pid (statText pidField name rest) p).1.name = (name, true))) := by
  have hscan := scanStat_statText pidField name rest hpid hname hrest
  have hname2 : ∀ c ∈ name.filter (fun c => !decide (c = ' ')), c ≠ '(' ∧ c ≠ ')' :=
    fun c hc => hname c (List.mem_of_mem_filter hc)
  have hscan2 := scanStat_statText pidField _ rest hpid hname2 hrest
  refine ⟨?_, ?_, ?_, ?_, ?_⟩
  · rw [hscan]
    exact ⟨rfl, rfl, rfl, rfl⟩
  · rw [hscan, hscan2]
    exact ⟨rfl, rfl, rfl⟩
  · intro v hv
    unfold readProcInfoStat
    rw [hscan]
    simp only [hv]
    constructor
    · cases toInt (rest.getD 5 []) <;> cases name <;>
        simp [parentPid, setPid, setName, setParentPid, setForegroundPid, Fields.set,
          Fields.testFlag]
    · rfl
  · intro v hv
    unfold readProcInfoStat
    rw [hscan]
    simp only [hv]
    cases toInt (rest.getD 1 []) <;> cases name <;>
      simp [foregroundPid, setPid, setName, setParentPid, setForegroundPid, Fields.set,
        Fields.testFlag]
  · intro hne
    unfold readProcInfoStat
    rw [hscan]
    cases name with
    | nil => exact absurd rfl hne
    | cons c cs =>
      cases toInt (rest.getD 1 []) <;> cases toInt (rest.getD 5 []) <;>
        simp [ProcessInfo.name, setPid, setName, setParentPid, setForegroundPid, Fields.set,
          Fields.testFlag]

theorem readProcInfo_stat_parenthesised_name_witness :
    ((∀ c ∈ "1234".toList, plainChar c) ∧
      (∀ c ∈ "my proc".toList, c ≠ '(' ∧ c ≠ ')') ∧
      (∀ f ∈ sampleStatRest, ∀ c ∈ f, plainChar c)) ∧
    statText "1234".toList "my proc".toList sampleStatRest =
      "1234 (my proc) S 1 1234 1234 34816 5678".toList ∧
    (scanStat (statText "1234".toList "my proc".toList sampleStatRest)).processNameString =
      "my proc".toList ∧
    (readProcInfoStat qToInt 1234 (statText "1234".toList "my proc".toList sampleStatRest)
      (new 1234)).1.parentPid = (1, true) ∧
    (readProcInfoStat qToInt 1234 (statText "1234".toList "my proc".toList sampleStatRest)
      (new 1234)).1.foregroundPid = (5678, true) := by
  have h1 : ∀ c ∈ "1234".toList, plainChar c := by decide
  have h2 : ∀ c ∈ "my proc".toList, c ≠ '(' ∧ c ≠ ')' := by decide
  have h3 : ∀ f ∈ sampleStatRest, ∀ c ∈ f, plainChar c := by decide
  have h := readProcInfo_stat_parenthesised_name qToInt 1234 (new 1234) "1234".toList
    "my proc".toList sampleStatRest h1 h2 h3
  exact ⟨⟨h1, h2, h3⟩, by decide, h.1.2.1, (h.2.2.1 1 (by decide)).1,
    h.2.2.2.1 5678 (by decide)⟩

/-! ### The Uid line -/

theorem uidStringOf_eq (uidLine : QString) :
    uidStringOf uidLine =
      if (splitSkipEmpty tabChar uidLine).length = 5 ∧
          ((splitSkipEmpty tabChar uidLine).getD 1 []).length ≤ 5 then
        (splitSkipEmpty tabChar uidLine).getD 1 []
      else [] := by
  unfold uidStringOf
  dsimp only
  generalize (splitSkipEmpty tabChar uidLine).getD 1 [] = u
  generalize (splitSkipEmpty tabChar uidLine).length = n
  by_cases h5 : n = 5
  · by_cases hlen : u.length ≤ 5
    · have hgt : ¬ u.length > 5 := by omega
      rw [if_pos h5, if_neg hgt, if_pos ⟨h5, hlen⟩]
    · have hgt : u.length > 5 := by omega
      rw [if_pos h5, if_pos hgt, if_neg (fun h => hlen h.2)]
  · have hnil : ¬ ([] : QString).length > 5 := by decide
    rw [if_neg h5, if_neg hnil, if_neg (fun h => h5 h.1)]

/-- What the user-id part of `readProcInfo` does: the UID flag is set afterwards exactly
when it was set before, or the Uid line splits on tabs into 5 non-empty entries of which
entry 1 has at most 5 characters and parses as an integer (`toInt` rejecting the empty
string). -/
theorem readProcInfoUid_sets_iff (toInt : QString → Option Int) (htoInt : toInt [] = none)
    (statusLines : List QString) (p : ProcessInfo) :
    (readProcInfoUid toInt statusLines p).userId.2 = true ↔
      p.userId.2 = true ∨
      ((splitSkipEmpty tabChar (findUidLine statusLines)).length = 5 ∧
        ((splitSkipEmpty tabChar (findUidLine statusLines)).getD 1 []).length ≤ 5 ∧
        (toInt ((splitSkipEmpty tabChar (findUidLine statusLines)).getD 1 [])).isSome = true) := by
  unfold readProcInfoUid
  rw [uidStringOf_eq]
  generalize (splitSkipEmpty tabChar (findUidLine statusLines)).getD 1 [] = u
  generalize (splitSkipEmpty tabChar (findUidLine statusLines)).length = n
  by_cases hok : n = 5 ∧ u.length ≤ 5
  · rw [if_pos hok]
    cases hparse : toInt u with
    | none => simp
    | some uid => simp [hok.1, hok.2, userId, setUserId, Fields.set, Fields.testFlag]
  · rw [if_neg hok, htoInt]
    constructor
    · intro h
      exact Or.inl h
    · intro h
      rcases h with h | h
      · exact h
      · exact absurd ⟨h.1, h.2.1⟩ hok

/-- C8 (the code at the input where it parts from its comment): for the Uid line of a
process of user 65534 the uid string has 5 characters, is kept, and `readProcInfo` sets
the user id to 65534, although 5 is not less than 5. -/
theorem readProcInfoUid_five_characters :
    (splitSkipEmpty tabChar sampleUidLine).length = 5 ∧
    ((splitSkipEmpty tabChar sampleUidLine).getD 1 []).length = 5 ∧
    (new 1).userId = (0, false) ∧
    (readProcInfoUid qToInt ["Name:\tsh".toList, sampleUidLine] (new 1)).userId =
      (65534, true) := by
  decide

/-! ### The valid current directory -/

theorem validCurrentDirLoop_stop (newInstance : Int → ProcessInfo)
    (readCurrentDir : Int → ProcessInfo → ProcessInfo × Bool) (fuel : Nat) (ok : Bool)
    (currentPid : Int) (dir : QString) (created : List Int)
    (h : ok = true ∨ currentPid = 0) :
    validCurrentDirLoop newInstance readCurrentDir fuel ok currentPid dir created =
      some (dir, created) := by
  have hcond : (!ok && decide (currentPid ≠ 0)) = false := by
    rcases h with h | h
    · simp [h]
    · simp [h]
  have hne : ¬ ((!ok && decide (currentPid ≠ 0)) = true) := by
    rw [hcond]
    decide
  cases fuel with
  | zero => rw [validCurrentDirLoop, if_neg hne]
  | succ n => rw [validCurrentDirLoop, if_neg hne]

theorem validCurrentDirLoop_round (newInstance : Int → ProcessInfo)
    (readCurrentDir : Int → ProcessInfo → ProcessInfo × Bool) (fuel : Nat)
    (currentPid : Int) (dir : QString) (created : List Int) (h : currentPid ≠ 0) :
    validCurrentDirLoop newInstance readCurrentDir (fuel + 1) false currentPid dir created =
      validCurrentDirLoop newInstance readCurrentDir fuel
        (instantiate newInstance readCurrentDir currentPid).currentDir.2
        (instantiate newInstance readCurrentDir currentPid).parentPid.1
        (instantiate newInstance readCurrentDir currentPid).currentDir.1
        (created ++ [currentPid]) := by
  have hcond : (!false && decide (currentPid ≠ 0)) = true := by simp [h]
  rw [validCurrentDirLoop, if_pos hcond]

/-- Along a walk that stops after the processes `pids`, the loop ends when it has fuel for
every one of them, with the directory of the last process and `pids` as the objects
created. -/
theorem validCurrentDirLoop_walk (newInstance : Int → ProcessInfo)
    (readCurrentDir : Int → ProcessInfo → ProcessInfo × Bool) (pids : List Int) :
    ∀ (pid : Int) (dir : QString) (created : List Int) (fuel : Nat),
      StopsAfter newInstance readCurrentDir pid pids → pids.length ≤ fuel →
      validCurrentDirLoop newInstance readCurrentDir fuel false pid dir created =
        some ((instantiate newInstance readCurrentDir (pids.getLastD 0)).currentDir.1,
          created ++ pids) := by
  induction pids with
  | nil =>
    intro pid dir created fuel h
    exact absurd h (by simp [StopsAfter])
  | cons q qs ih =>
    intro pid dir created fuel h hfuel
    cases fuel with
    | zero => simp at hfuel
    | succ n =>
      cases qs with
      | nil =>
        obtain ⟨hq, hpid, hstop⟩ := h
        subst hq
        rw [validCurrentDirLoop_round newInstance readCurrentDir n q dir created hpid,
          validCurrentDirLoop_stop newInstance readCurrentDir n _ _ _ _ hstop]
        rfl
      | cons q2 qs2 =>
        obtain ⟨hq, hpid, hinvalid, hrest⟩ := h
        subst hq
        have hlen : (q2 :: qs2).length ≤ n := by
          simp only [List.length_cons] at hfuel ⊢
          omega
        rw [validCurrentDirLoop_round newInstance readCurrentDir n q dir created hpid,
          hinvalid, ih _ _ _ n hrest hlen]
        simp [List.getLastD]

/-- C11: `validCurrentDir` returns the process's own current directory, creating no other
`ProcessInfo`, when that field is valid; it does the same when the field is not valid and
the parent pid is 0; otherwise it walks up the parent pids, creating one `ProcessInfo`
per process, past every ancestor whose current directory could not be read, and returns
the current directory of the first ancestor whose directory is valid or whose parent pid
is 0 (in the latter case the last directory read). The loop ends with this result
whenever it is given at least as many rounds as the walk has processes. -/
theorem validCurrentDir_spec (newInstance : Int → ProcessInfo)
    (readCurrentDir : Int → ProcessInfo → ProcessInfo × Bool) (p : ProcessInfo) :
    (p.currentDir.2 = true →
      ∀ fuel, validCurrentDir newInstance readCurrentDir fuel p = some (p.currentDir.1, [])) ∧
    (p.currentDir.2 = false → p.parentPid.1 = 0 →
      ∀ fuel, validCurrentDir newInstance readCurrentDir fuel p = some (p.currentDir.1, [])) ∧
    (p.currentDir.2 = false →
      ∀ pids, StopsAfter newInstance readCurrentDir p.parentPid.1 pids →
      ∀ fuel, pids.length ≤ fuel →
        validCurrentDir newInstance readCurrentDir fuel p =
          some ((instantiate newInstance readCurrentDir (pids.getLastD 0)).currentDir.1, pids)) := by
  refine ⟨?_, ?_, ?_⟩
  · intro hvalid fuel
    exact validCurrentDirLoop_stop newInstance readCurrentDir fuel _ _ _ _ (Or.inl hvalid)
  · intro _ hparent fuel
    exact validCurrentDirLoop_stop newInstance readCurrentDir fuel _ _ _ _ (Or.inr hparent)
  · intro hinvalid pids hwalk fuel hfuel
    unfold validCurrentDir
    rw [hinvalid, validCurrentDirLoop_walk newInstance readCurrentDir pids _ _ _ fuel hwalk hfuel]
    simp

theorem validCurrentDir_spec_witness :
    (sampleProcess.currentDir.2 = false ∧
      StopsAfter sampleNewInstance (readCurrentDirLinux sampleReadlink)
        sampleProcess.parentPid.1 [20, 10] ∧
      [20, (10 : Int)].length ≤ 2) ∧
    validCurrentDir sampleNewInstance (readCurrentDirLinux sampleReadlink) 2 sampleProcess =
      some ("/home".toList, [20, 10]) ∧
    ((sampleProcess.setCurrentDir "/tmp".toList).currentDir.2 = true ∧
      validCurrentDir sampleNewInstance (readCurrentDirLinux sampleReadlink) 0
        (sampleProcess.setCurrentDir "/tmp".toList) = some ("/tmp".toList, [])) := by
  have h1 : sampleProcess.currentDir.2 = false := by decide
  have h2 : StopsAfter sampleNewInstance (readCurrentDirLinux sampleReadlink)
      sampleProcess.parentPid.1 [20, 10] :=
    ⟨by decide, by decide, by decide, by decide, by decide, Or.inl (by decide)⟩
  have h3 : [20, (10 : Int)].length ≤ 2 := by decide
  have h4 : (sampleProcess.setCurrentDir "/tmp".toList).currentDir.2 = true := by decide
  refine ⟨⟨h1, h2, h3⟩, ?_, h4, ?_⟩
  · have h := (validCurrentDir_spec sampleNewInstance (readCurrentDirLinux sampleReadlink)
      sampleProcess).2.2 h1 [20, 10] h2 2 h3
    rw [h]
    decide
  · exact (validCurrentDir_spec sampleNewInstance (readCurrentDirLinux sampleReadlink)
      (sampleProcess.setCurrentDir "/tmp".toList)).1 h4 0

/-- Why the walk has to be finite: in a table whose parent pids run in a circle and in
which no directory can be read, the loop of `validCurrentDir` ends for no amount of
fuel. -/
theorem validCurrentDirLoop_circle (fuel : Nat) (dir : QString) (created : List Int) :
    validCurrentDirLoop loopingNewInstance (readCurrentDirLinux (fun _ => none)) fuel false 5
      dir created = none := by
  induction fuel generalizing dir created with
  | zero => rfl
  | succ n ih =>
    rw [validCurrentDirLoop_round _ _ n 5 dir created (by decide)]
    exact ih _ _

end ProcessInfo

end Konsole
